import Mathlib

/-!
# Verification of the infobot run classification and statistics engine

A shallow embedding of `src/infobot.py` (a Python 2 Flask service tracking
Diablo II game runs).  Pure functions of the source are translated directly;
the sqlite-backed state is modelled as explicit list-valued tables with the
same query semantics (`order by` / `fetchone` picking the extremal row).

Arithmetic notes on the source, reflected in the embedding:
* the source is Python 2 (`len(filter(...))` in `leaderboard` only runs there),
  so `/` on two ints is floor division; durations are whole seconds (ints);
* the external `quantile(xs, q, 7, issorted)` call computes the R-type-7
  linear-interpolation quantile, index `h = (n-1)*q`, interpolated between the
  sorted values at `floor h` and `ceil h`; for the fixed quantiles 0.1 / 0.9
  this value has denominator 10, so the embedding carries the boundaries
  scaled by 10 as exact naturals (Python's binary-float rounding, which can
  shift a boundary by about 1e-16, is abstracted to exact arithmetic);
* `int(0.1*n)` / `int(0.9*n)` in `leaderboard` equal `n / 10` / `9 * n / 10`
  for every feasible count `n` (the float products of 0.1 and 0.9 with such
  `n` truncate to the exact floor), so they are embedded as natural division.
-/

namespace Infobot

/-! ## Classifier (`COMMON_RUNS`, `COMMON_PAT`, `CUSTOM_PAT`, `run_type`) -/

/-- `COMMON_RUNS`: the fixed token → canonical display label table. -/
def COMMON_RUNS : List (String × String) :=
  [("meph", "Mephisto"), ("trav", "Travincal"), ("baal", "Baal"), ("mf", "MF"),
   ("chaos", "Chaos"), ("pind", "Pindleskin"), ("count", "Countess")]

/-- The alternation tokens of `COMMON_PAT = re.compile('(meph|trav|…)')`.
No token is a prefix of another, so at any text position at most one token
matches and the search result is independent of the alternation order (which
in the source is the Python 2 dict key order of `COMMON_RUNS`). -/
def commonTokens : List (List Char) := COMMON_RUNS.map (fun p => p.1.data)

/-- `COMMON_PAT.search(s)`: scan positions left to right; at each position
return the first alternation token matching there. -/
def commonSearch : List Char → Option (List Char)
  | [] => none
  | c :: rest =>
    match commonTokens.find? (fun t => t.isPrefixOf (c :: rest)) with
    | some t => some t
    | none => commonSearch rest

/-- `CUSTOM_PAT.match(s)` for `CUSTOM_PAT = re.compile('([^\d]+)\d')`: the
longest leading run of non-digits must be nonempty and followed by a digit;
the captured group is that run. -/
def customMatch (s : List Char) : Option (List Char) :=
  let p := s.takeWhile (fun c => ! c.isDigit)
  match p, s.drop p.length with
  | [], _ => none
  | _, [] => none
  | _, d :: _ => if d.isDigit then some p else none

/-- `run_type(gamename)`: common-token search on the lower-cased name, then
the custom pattern, then the gamename itself (note: the *original* string,
not the lower-cased one). -/
def run_type (gamename : String) : String :=
  let low := gamename.data.map Char.toLower
  match commonSearch low with
  | some t => String.mk t
  | none =>
    match customMatch low with
    | some p => String.mk p
    | none => gamename

/-- `COMMON_RUNS.get(rtype, rtype)` as used in `start_response`: the canonical
display label of a run type. -/
def canonicalLabel (rtype : String) : String :=
  match COMMON_RUNS.find? (fun p => p.1 == rtype) with
  | some p => p.2
  | none => rtype

/-! ## Run records -/

/-- A row of the `runs` table (`RUN_COL_NAMES`).  Timestamps are modelled as
integer seconds; `end_dt = none` is a SQL NULL, i.e. an open run. -/
structure Run where
  id : Nat
  group_id : Nat
  gamename : String
  start_dt : Int
  end_dt : Option Int
deriving DecidableEq, Repr

/-- `Run.seconds`: `abs(c.days*86400 + c.seconds)` of `end_dt - start_dt`,
defined only for closed runs (Python returns `None` otherwise). -/
def Run.seconds (r : Run) : Option Nat :=
  r.end_dt.map (fun e => (e - r.start_dt).natAbs)

/-- `Run.type()`. -/
def Run.type (r : Run) : String := run_type r.gamename

/-! ## Statistics engine (`get_stats`) -/

def MIN_RUNS : Nat := 10

/-- The closed runs of one type, in input order: the list `runs_by_type[rtype]`
built by the first pass of `get_stats` (open runs are skipped entirely). -/
def closedOfType (runs : List Run) (rtype : String) : List Run :=
  runs.filter (fun r => r.end_dt.isSome && (r.type == rtype))

/-- The durations of the closed runs of one type, in input order. -/
def closedSecs (runs : List Run) (rtype : String) : List Nat :=
  (closedOfType runs rtype).filterMap Run.seconds

/-- `sorted(sec_gen)`. -/
def sortedSecs (runs : List Run) (rtype : String) : List Nat :=
  List.insertionSort (· ≤ ·) (closedSecs runs rtype)

/-- Modelled from the spec: ten times the value of the external
`quantile(y, k/10, 7, issorted=True)` call (the `quantile` module is not part
of `src/`).  Per the spec this is the linear-interpolation quantile with index
`h = (n-1)*q`: for `q = k/10` write `(n-1)*k = 10*j + r`; the quantile is
`y[j] + (y[j+1] - y[j]) * r/10`, i.e. `((10-r)*y[j] + r*y[j+1]) / 10`, so the
scaled value below is exact over ℕ.  (`quantile7` below is the unscaled ℚ
version; `quantX10_eq_quantile7` proves the correspondence.) -/
def quantX10 (y : List Nat) (k : Nat) : Nat :=
  let m := (y.length - 1) * k
  (10 - m % 10) * y.getD (m / 10) 0 + (m % 10) * y.getD (m / 10 + 1) 0

/-- Modelled from the spec: the external `quantile(y, q, 7, issorted=True)` as
an exact rational — index `h = (n-1)*q`, linear interpolation between the
values at `floor h` and `ceil h`, clamped to the first/last element. -/
def quantile7 (y : List ℚ) (q : ℚ) : ℚ :=
  let n := y.length
  let h : ℚ := ((n : ℚ) - 1) * q
  if h < 0 then y.getD 0 0
  else if (n : ℚ) - 1 ≤ h then y.getD (n - 1) 0
  else
    let j : ℕ := (⌊h⌋).toNat
    y.getD j 0 + (y.getD (j + 1) 0 - y.getD j 0) * (h - (⌊h⌋ : ℚ))

/-- `is_outlier(x, boundaries)`, with everything scaled by 10: the duration
`x10 = 10*x` is an outlier iff `x < boundaries['min'] or x > boundaries['max']`. -/
def is_outlier (x10 bmin10 bmax10 : Nat) : Bool :=
  decide (x10 < bmin10) || decide (bmax10 < x10)

/-- `boundaries[rtype]['min']`, scaled by 10. -/
def boundMinX10 (runs : List Run) (rtype : String) : Nat :=
  quantX10 (sortedSecs runs rtype) 1

/-- `boundaries[rtype]['max']`, scaled by 10. -/
def boundMaxX10 (runs : List Run) (rtype : String) : Nat :=
  quantX10 (sortedSecs runs rtype) 9

/-- The durations counted into `stats[rtype]['count']`/`['secs']` by the third
loop of `get_stats`: a closed run of the type is included iff
`nruns < MIN_RUNS or not is_outlier(secs, boundaries[rtype])`. -/
def includedSecs (runs : List Run) (rtype : String) : List Nat :=
  (closedSecs runs rtype).filter (fun d =>
    decide ((closedOfType runs rtype).length < MIN_RUNS) ||
    ! is_outlier (10 * d) (boundMinX10 runs rtype) (boundMaxX10 runs rtype))

/-- One value of the `output` dict of `get_stats`. -/
structure TypeStats where
  avg : Nat
  count : Nat
  last : Nat
deriving DecidableEq, Repr

/-- `get_stats(group_id)[rtype]`, as a function of the run list returned by
`get_group_runs` (ordered by `start_dt` descending) and the type key:
`none` when `rtype` is absent from the output dict.  `avg` is Python 2
integer division `secs / count`; `count` is `stats[rtype]['total']`, the
number of *closed* runs of the type; `last` is the duration of the first
closed run of the type in input order. -/
def get_stats (runs : List Run) (rtype : String) : Option TypeStats :=
  match closedOfType runs rtype with
  | [] => none
  | r :: _ =>
    if (includedSecs runs rtype).length = 0 then none
    else
      some { avg := (includedSecs runs rtype).sum / (includedSecs runs rtype).length,
             count := (closedOfType runs rtype).length,
             last := (Run.seconds r).getD 0 }

/-! ## Leaderboard -/

/-- All runs (open or closed) of one type, in input order: the list
`types[rtype]` built by `leaderboard` for one user. -/
def runsOfType (runs : List Run) (rtype : String) : List Run :=
  runs.filter (fun r => r.type == rtype)

/-- `considered` in `leaderboard`: `sorted(all_secs)` in Python 2 places the
`None`s of open runs before all ints, so dropping them afterwards leaves
exactly the sorted closed durations, equal to sorting the closed durations. -/
def consideredLB (runs : List Run) (rtype : String) : List Nat :=
  List.insertionSort (· ≤ ·) ((runsOfType runs rtype).filterMap Run.seconds)

/-- `considered[x1:x2]` in `leaderboard`: the slice from `x1 = int(0.1 * n)`
to `x2 = int(0.9 * n)`, which are `n / 10` and `9 * n / 10` (header note). -/
def trimmedLB (runs : List Run) (rtype : String) : List Nat :=
  ((consideredLB runs rtype).drop ((consideredLB runs rtype).length / 10)).take
    (9 * (consideredLB runs rtype).length / 10 - (consideredLB runs rtype).length / 10)

/-- One entry `(count, total/nconsidered, user)` appended to `top[rtype]` by
`leaderboard`, for one user's run list; `total/nconsidered` is Python 2 floor
division by the number of *closed* runs of the type (`count` also includes
the open ones). -/
def leaderboardEntry (runs : List Run) (user : String) (rtype : String) :
    Option (Nat × Nat × String) :=
  if (consideredLB runs rtype).length = 0 then none
  else
    some ((runsOfType runs rtype).length,
      (trimmedLB runs rtype).sum / (consideredLB runs rtype).length, user)

/-! ## Run persistence (`get_run`, `stop_run`) -/

/-- `get_run(group_id)`: `select … from runs where group_id=? order by
start_dt desc` + `fetchone`, i.e. the run of the group with the largest
`start_dt` (the first such row in table order on ties), regardless of whether
it is open or closed — the query has no `end_dt is null` filter. -/
def get_run (runs : List Run) (group_id : Nat) : Option Run :=
  (runs.filter (fun r => r.group_id == group_id)).foldl
    (fun acc r =>
      match acc with
      | none => some r
      | some b => if b.start_dt < r.start_dt then some r else some b)
    none

/-- `stop_run(group_id)` at wall-clock time `t`: `update runs set end_dt=?
where id=?` on the run returned by `get_run`, if any. -/
def stop_run (runs : List Run) (group_id : Nat) (t : Int) : List Run :=
  match get_run runs group_id with
  | none => runs
  | some rr => runs.map (fun r => if r.id == rr.id then { r with end_dt := some t } else r)

/-! ## Users and groups (`get_user`, `get_group`, the `stats` view) -/

/-- The `users` and `run_groups` tables: `(id, username)` and `(id, user_id)`
rows in insertion order, with the next autoincrement rowids. -/
structure AppDB where
  users : List (Nat × String)
  groups : List (Nat × Nat)
  nextUser : Nat
  nextGroup : Nat
deriving DecidableEq, Repr

/-- `add_user(username)`: insert and return the new rowid. -/
def add_user (db : AppDB) (username : String) : Nat × AppDB :=
  (db.nextUser,
   { db with users := db.users ++ [(db.nextUser, username)], nextUser := db.nextUser + 1 })

/-- `get_user(username)`: `select id from users where username=?` +
`fetchone`; inserts a fresh user when the select comes back empty. -/
def get_user (db : AppDB) (username : String) : Nat × AppDB :=
  match db.users.find? (fun u => u.2 == username) with
  | some u => (u.1, db)
  | none => add_user db username

/-- `add_group(user_id)`: insert and return the new rowid. -/
def add_group (db : AppDB) (user_id : Nat) : Nat × AppDB :=
  (db.nextGroup,
   { db with groups := db.groups ++ [(db.nextGroup, user_id)], nextGroup := db.nextGroup + 1 })

/-- `get_group(user_id)`: `select id from run_groups where user_id=? order by
id desc` + `fetchone`, i.e. the group of the user with the largest id;
inserts a fresh group when the user has none. -/
def get_group (db : AppDB) (user_id : Nat) : Nat × AppDB :=
  match (db.groups.filter (fun gr => gr.2 == user_id)).foldl
      (fun acc gr =>
        match acc with
        | none => some gr
        | some b => if b.1 < gr.1 then some gr else some b)
      none with
  | some gr => (gr.1, db)
  | none => add_group db user_id

/-- The database effect of the `GET /<username>/` handler `stats`: it calls
`get_user`, then `get_group`, then the read-only `get_stats`, and returns the
rendered page; only the resulting database state is modelled here. -/
def stats_route (db : AppDB) (username : String) : AppDB :=
  ((get_group (get_user db username).2 (get_user db username).1).2)

/-! ## Concrete inputs used by the witnesses and counterexamples -/

/-- Ten closed `meph` runs, start times descending, durations 10, 9, …, 1. -/
def ex1 : List Run :=
  [⟨1, 1, "meph", 100, some 110⟩, ⟨2, 1, "meph", 90, some 99⟩,
   ⟨3, 1, "meph", 80, some 88⟩, ⟨4, 1, "meph", 70, some 77⟩,
   ⟨5, 1, "meph", 60, some 66⟩, ⟨6, 1, "meph", 50, some 55⟩,
   ⟨7, 1, "meph", 40, some 44⟩, ⟨8, 1, "meph", 30, some 33⟩,
   ⟨9, 1, "meph", 20, some 22⟩, ⟨10, 1, "meph", 10, some 11⟩]

/-- One closed `meph` run (duration 2) followed by one open `meph` run. -/
def ex2 : List Run := [⟨1, 1, "meph", 0, some 2⟩, ⟨2, 1, "meph", 5, none⟩]

/-- Ten closed `meph` runs, each of duration 10. -/
def ex3 : List Run :=
  [⟨1, 1, "meph", 100, some 110⟩, ⟨2, 1, "meph", 90, some 100⟩,
   ⟨3, 1, "meph", 80, some 90⟩, ⟨4, 1, "meph", 70, some 80⟩,
   ⟨5, 1, "meph", 60, some 70⟩, ⟨6, 1, "meph", 50, some 60⟩,
   ⟨7, 1, "meph", 40, some 50⟩, ⟨8, 1, "meph", 30, some 40⟩,
   ⟨9, 1, "meph", 20, some 30⟩, ⟨10, 1, "meph", 10, some 20⟩]

/-- Two closed `meph` runs with distinct descending start times. -/
def ex7 : List Run := [⟨1, 1, "meph", 10, some 12⟩, ⟨2, 1, "meph", 5, some 6⟩]

/-- A single closed `meph` run of duration 7. -/
def ex8 : List Run := [⟨1, 1, "meph", 0, some 7⟩]

/-- A single open `meph` run. -/
def ex9 : List Run := [⟨1, 1, "meph", 0, none⟩]

/-- A group whose only run is already closed (ended at time 5). -/
def ex6 : List Run := [⟨1, 1, "meph", 0, some 5⟩]

/-- An empty database whose autoincrement counters start at 1. -/
def ex10 : AppDB := ⟨[], [], 1, 1⟩

/-! ## Helper lemmas -/

/-- A natural-valued duration list viewed as rationals. -/
def natCastList (y : List ℕ) : List ℚ := y.map (fun d : ℕ => (d : ℚ))

theorem getD_natCastList : ∀ (y : List ℕ) (i : ℕ),
    (natCastList y).getD i 0 = ((y.getD i 0 : ℕ) : ℚ)
  | [], _ => by simp [natCastList]
  | _ :: _, 0 => by simp [natCastList]
  | _ :: y, (i + 1) => by simpa [natCastList] using getD_natCastList y i

theorem length_natCastList (y : List ℕ) : (natCastList y).length = y.length := by
  simp [natCastList]

theorem floor_natCast_div_ten (m : ℕ) : ⌊(m : ℚ) / 10⌋ = ((m / 10 : ℕ) : ℤ) := by
  rw [show ((10 : ℚ)) = ((10 : ℕ) : ℚ) by norm_num, Rat.floor_natCast_div_natCast]
  omega

/-- The scaled quantile agrees with the rational type-7 quantile:
`quantX10 y k = 10 * quantile7 (y as ℚ) (k/10)` for `1 ≤ k ≤ 9`. -/
theorem quantX10_eq_quantile7 (y : List ℕ) (k : ℕ) (hk1 : 1 ≤ k) (hk9 : k ≤ 9) :
    quantile7 (natCastList y) ((k : ℚ) / 10) = (quantX10 y k : ℚ) / 10 := by
  have hkQ : (1 : ℚ) ≤ (k : ℚ) := by exact_mod_cast hk1
  rcases y with _ | ⟨a, y'⟩
  · simp [quantile7, quantX10, natCastList]
  rcases y' with _ | ⟨b, y''⟩
  · -- a single element: `h = 0`, second branch of `quantile7`
    simp [quantile7, quantX10, natCastList]
  · -- at least two elements: the interpolation branch
    simp only [quantile7, quantX10, length_natCastList]
    set n := (a :: b :: y'').length with hn
    have hn2 : 2 ≤ n := by
      rw [hn]
      simp
    set m := (n - 1) * k with hm
    have hmlt : m < 10 * (n - 1) := by
      have h1 : m ≤ (n - 1) * 9 := Nat.mul_le_mul_left _ hk9
      omega
    have hcast : ((n : ℚ) - 1) = ((n - 1 : ℕ) : ℚ) := by
      have h1 : 1 ≤ n := by omega
      push_cast [Nat.cast_sub h1]
      ring
    have hh : ((n : ℚ) - 1) * ((k : ℚ) / 10) = (m : ℚ) / 10 := by
      rw [hcast, hm]
      push_cast
      ring
    have hfloor : ⌊(m : ℚ) / 10⌋ = ((m / 10 : ℕ) : ℤ) := floor_natCast_div_ten m
    have hr10 : m % 10 < 10 := Nat.mod_lt _ (by norm_num)
    have hsplit : (m : ℚ) = 10 * ((m / 10 : ℕ) : ℚ) + ((m % 10 : ℕ) : ℚ) := by
      exact_mod_cast (Nat.div_add_mod m 10).symm
    rw [hh]
    rw [if_neg (by
      push_neg
      positivity)]
    rw [if_neg (by
      rw [hcast]
      intro hle
      have h1 : ((m : ℚ) / 10) * 10 < ((10 * (n - 1) : ℕ) : ℚ) := by
        rw [div_mul_cancel₀ _ (by norm_num : (10 : ℚ) ≠ 0)]
        exact_mod_cast hmlt
      have h2 : ((n - 1 : ℕ) : ℚ) * 10 ≤ ((m : ℚ) / 10) * 10 := by
        have := mul_le_mul_of_nonneg_right hle (by norm_num : (0 : ℚ) ≤ 10)
        linarith
      have h3 : ((10 * (n - 1) : ℕ) : ℚ) = ((n - 1 : ℕ) : ℚ) * 10 := by
        push_cast
        ring
      linarith)]
    rw [hfloor, Int.toNat_natCast, Int.cast_natCast]
    rw [getD_natCastList, getD_natCastList]
    have hg : (m : ℚ) / 10 - ((m / 10 : ℕ) : ℚ) = ((m % 10 : ℕ) : ℚ) / 10 := by
      rw [eq_div_iff (by norm_num : (10 : ℚ) ≠ 0), sub_mul,
        div_mul_cancel₀ _ (by norm_num : (10 : ℚ) ≠ 0), hsplit]
      ring
    rw [hg]
    have hsub : ((10 - m % 10 : ℕ) : ℚ) = 10 - ((m % 10 : ℕ) : ℚ) := by
      push_cast [Nat.cast_sub (by omega : m % 10 ≤ 10)]
      ring
    push_cast [hsub]
    field_simp
    ring

/-- Every common token is nonempty. -/
theorem commonTokens_ne_nil : ∀ t ∈ commonTokens, t ≠ [] := by decide

/-- Soundness of the token search: a result is a common token occurring in the
scanned text. -/
theorem commonSearch_some_spec :
    ∀ (s : List Char) (t : List Char), commonSearch s = some t →
      t ∈ commonTokens ∧ t <:+: s := by
  intro s
  induction s with
  | nil => intro t ht; simp [commonSearch] at ht
  | cons c rest ih =>
    intro t ht
    rcases hf : commonTokens.find? (fun u : List Char => u.isPrefixOf (c :: rest)) with _ | t0
    · simp only [commonSearch, hf] at ht
      obtain ⟨hmem, hinf⟩ := ih t ht
      exact ⟨hmem, List.infix_cons hinf⟩
    · simp only [commonSearch, hf] at ht
      have ht0 : t0 = t := by simpa using ht
      have hp := List.find?_some hf
      have hmem := List.mem_of_find?_eq_some hf
      rw [ht0] at hp hmem
      exact ⟨hmem, List.IsPrefix.isInfix (List.isPrefixOf_iff_prefix.mp hp)⟩

/-- Completeness of the token search: if some common token occurs in the text,
the search succeeds. -/
theorem commonSearch_isSome_of_token :
    ∀ (s : List Char) (t : List Char), t ∈ commonTokens → t <:+: s →
      (commonSearch s).isSome := by
  intro s
  induction s with
  | nil =>
    intro t hmem hinf
    have : t = [] := List.eq_nil_of_infix_nil hinf
    exact absurd this (commonTokens_ne_nil t hmem)
  | cons c rest ih =>
    intro t hmem hinf
    rcases hf : commonTokens.find? (fun u : List Char => u.isPrefixOf (c :: rest)) with _ | t0
    · rcases List.infix_cons_iff.mp hinf with hpre | hinf'
      · exfalso
        have := List.find?_eq_none.mp hf t hmem
        exact this (List.isPrefixOf_iff_prefix.mpr hpre)
      · simp only [commonSearch, hf]
        exact ih t hmem hinf'
    · simp only [commonSearch, hf, Option.isSome_some]

/-- A closed run has a duration. -/
theorem seconds_isSome {r : Run} (h : r.end_dt.isSome = true) :
    ∃ v, Run.seconds r = some v := by
  rcases hend : r.end_dt with _ | e
  · rw [hend] at h
    simp at h
  · exact ⟨(e - r.start_dt).natAbs, by simp [Run.seconds, hend]⟩

/-- Members of `closedOfType` are closed runs of the type from the input. -/
theorem mem_closedOfType {runs : List Run} {rtype : String} {r : Run}
    (h : r ∈ closedOfType runs rtype) :
    r ∈ runs ∧ r.end_dt.isSome = true ∧ r.type = rtype := by
  obtain ⟨hmem, hpred⟩ := List.mem_filter.mp h
  rw [Bool.and_eq_true] at hpred
  exact ⟨hmem, hpred.1, by simpa using hpred.2⟩

/-- Over a list of closed runs, `filterMap Run.seconds` drops nothing. -/
theorem length_filterMap_seconds :
    ∀ (l : List Run), (∀ r ∈ l, r.end_dt.isSome = true) →
      (l.filterMap Run.seconds).length = l.length := by
  intro l
  induction l with
  | nil => intro _; simp
  | cons r l ih =>
    intro h
    obtain ⟨v, hv⟩ := seconds_isSome (h r (List.mem_cons_self r l))
    simp [List.filterMap_cons, hv, ih (fun x hx => h x (List.mem_cons_of_mem _ hx))]

theorem length_closedSecs (runs : List Run) (rtype : String) :
    (closedSecs runs rtype).length = (closedOfType runs rtype).length :=
  length_filterMap_seconds _ (fun _ hr => (mem_closedOfType hr).2.1)

/-- Inversion of `get_stats`: what a present output entry is made of. -/
theorem get_stats_some_inv {runs : List Run} {rtype : String} {o : TypeStats}
    (ho : get_stats runs rtype = some o) :
    0 < (includedSecs runs rtype).length ∧
    o.avg = (includedSecs runs rtype).sum / (includedSecs runs rtype).length ∧
    o.count = (closedOfType runs rtype).length ∧
    ∃ r rest, closedOfType runs rtype = r :: rest ∧ o.last = (Run.seconds r).getD 0 := by
  unfold get_stats at ho
  split at ho
  · exact absurd ho (by simp)
  · rename_i r rest heq
    by_cases hz : (includedSecs runs rtype).length = 0
    · rw [if_pos hz] at ho
      exact absurd ho (by simp)
    · rw [if_neg hz] at ho
      obtain rfl := Option.some.inj ho
      exact ⟨Nat.pos_of_ne_zero hz, rfl, rfl, r, rest, heq, rfl⟩

/-! ## Claim C4 -/

/-- C4, counterexample: the claim says classification returns the token's
canonical label (e.g. `"Mephisto"` for `"meph"`), but `run_type` returns the
matched token itself; the canonical label is only applied by
`start_response` via `COMMON_RUNS.get`. -/
theorem run_type_not_canonical_label_cex :
    canonicalLabel "meph" = "Mephisto" ∧ run_type "meph" = "meph" ∧
    run_type "meph" ≠ "Mephisto" := by
  decide

/-- C4, amended: for every gamename containing a known token anywhere in its
lower-cased form, `run_type` returns a known token occurring in the
lower-cased name (the token itself, e.g. `"meph"`, not its display label),
regardless of surrounding characters. -/
theorem run_type_returns_matched_token (g : String) (t : List Char)
    (ht : t ∈ commonTokens) (hin : t <:+: g.data.map Char.toLower) :
    ∃ u, u ∈ commonTokens ∧ run_type g = String.mk u ∧
      u <:+: g.data.map Char.toLower := by
  have hs := commonSearch_isSome_of_token (g.data.map Char.toLower) t ht hin
  rcases hcs : commonSearch (g.data.map Char.toLower) with _ | u
  · rw [hcs] at hs
    simp at hs
  · obtain ⟨hmem, hinf⟩ := commonSearch_some_spec _ u hcs
    refine ⟨u, hmem, ?_, hinf⟩
    simp only [run_type, hcs]

/-- C4, witness at `"Meph35"`. -/
theorem run_type_returns_matched_token_witness :
    ∃ u, u ∈ commonTokens ∧ run_type "Meph35" = String.mk u ∧
      u <:+: "Meph35".data.map Char.toLower :=
  run_type_returns_matched_token "Meph35" "meph".data (by decide) (by decide)

/-! ## Claim C5 -/

/-- C5, counterexample: on a gamename with no known token and no match of the
custom pattern, `run_type` returns the gamename in its *original* case, not
the lower-cased form the claim asserts. -/
theorem run_type_fallback_not_lowered_cex :
    run_type "ABC" = "ABC" ∧ run_type "ABC" ≠ "abc" := by
  decide

/-- C5, amended: when no known token occurs in the lower-cased gamename and
the leading-non-digits-then-digit pattern does not match it, `run_type`
returns the verbatim gamename unchanged (original case). -/
theorem run_type_fallback_verbatim (g : String)
    (h1 : ∀ t ∈ commonTokens, ¬ t <:+: g.data.map Char.toLower)
    (h2 : customMatch (g.data.map Char.toLower) = none) :
    run_type g = g := by
  rcases hcs : commonSearch (g.data.map Char.toLower) with _ | t
  · simp only [run_type, hcs, h2]
  · obtain ⟨hmem, hinf⟩ := commonSearch_some_spec _ t hcs
    exact absurd hinf (h1 t hmem)

/-- C5, witness at `"ABC"`. -/
theorem run_type_fallback_verbatim_witness : run_type "ABC" = "ABC" :=
  run_type_fallback_verbatim "ABC" (by decide) (by decide)

/-! ## Claim C8 -/

/-- C8: with fewer than `MIN_RUNS` closed runs of a type, trimming is a
no-op — every closed duration is included — and a type with exactly one
closed run is reported with that run's own duration as its average. -/
theorem get_stats_no_trim_below_min (runs : List Run) (rtype : String)
    (_h1 : 0 < (closedOfType runs rtype).length)
    (h2 : (closedOfType runs rtype).length < MIN_RUNS) :
    includedSecs runs rtype = closedSecs runs rtype ∧
    ∀ d, closedSecs runs rtype = [d] →
      get_stats runs rtype =
        some { avg := d, count := (closedOfType runs rtype).length, last := d } := by
  have hincl : includedSecs runs rtype = closedSecs runs rtype := by
    unfold includedSecs
    apply List.filter_eq_self.mpr
    intro d _
    rw [decide_eq_true h2]
    simp
  refine ⟨hincl, ?_⟩
  intro d hsingle
  have hlen : (closedOfType runs rtype).length = 1 := by
    rw [← length_closedSecs, hsingle]
    rfl
  obtain ⟨r, hr⟩ := List.length_eq_one.mp hlen
  have hsec : Run.seconds r = some d := by
    have h := hsingle
    rw [closedSecs, hr] at h
    rcases hv : Run.seconds r with _ | v
    · rw [List.filterMap_cons, hv] at h
      simp at h
    · rw [List.filterMap_cons, hv] at h
      simp only [List.filterMap_nil] at h
      obtain rfl := (List.cons.injEq _ _ _ _).mp h |>.1
      rfl
  unfold get_stats
  rw [hr]
  rw [hincl, hsingle]
  norm_num
  rw [hsec]
  rfl

/-- C8, witness: a type with a single closed run of duration 7. -/
theorem get_stats_no_trim_below_min_witness :
    get_stats ex8 "meph" =
      some { avg := 7, count := (closedOfType ex8 "meph").length, last := 7 } :=
  (get_stats_no_trim_below_min ex8 "meph" (by decide) (by decide)).2 7 (by decide)

/-! ## Claim C9 -/

/-- C9: `get_stats` never divides by zero — an output entry exists only with
a strictly positive included count (and its average is the guarded quotient);
a type all of whose runs are open is omitted from the output entirely. -/
theorem get_stats_no_zero_division (runs : List Run) (rtype : String) :
    (∀ o, get_stats runs rtype = some o →
        0 < (includedSecs runs rtype).length ∧
        o.avg = (includedSecs runs rtype).sum / (includedSecs runs rtype).length) ∧
    ((∀ r ∈ runs, r.type = rtype → r.end_dt = none) →
        get_stats runs rtype = none) := by
  constructor
  · intro o ho
    obtain ⟨hpos, havg, -, -⟩ := get_stats_some_inv ho
    exact ⟨hpos, havg⟩
  · intro hopen
    have hc : closedOfType runs rtype = [] := by
      unfold closedOfType
      apply List.filter_eq_nil_iff.mpr
      intro r hr
      by_cases htype : r.type = rtype
      · have hend := hopen r hr htype
        simp [hend]
      · simp [htype]
    unfold get_stats
    rw [hc]

/-- C9, witness: a type with only an open run is absent from the output. -/
theorem get_stats_no_zero_division_witness : get_stats ex9 "meph" = none :=
  (get_stats_no_zero_division ex9 "meph").2 (by decide)

/-! ## Claim C2 -/

/-- C2, counterexample: with one closed and one open `meph` run, the claim
predicts `count = 2` (all runs of the type), but `get_stats` reports 1 —
open runs never enter `runs_by_type`, so `stats[rtype]['total']` counts only
closed runs. -/
theorem get_stats_count_ignores_open_cex :
    (runsOfType ex2 "meph").length = 2 ∧
    (get_stats ex2 "meph").map TypeStats.count = some 1 ∧
    (1 : Nat) ≠ 2 := by
  decide

/-- C2, amended: for every run type present in the output of `get_stats`, the
reported sample count equals the number of *closed* runs of that type; open
runs are not counted. -/
theorem get_stats_count_closed_only (runs : List Run) (rtype : String) :
    ∀ o, get_stats runs rtype = some o →
      o.count = (closedOfType runs rtype).length := by
  intro o ho
  exact (get_stats_some_inv ho).2.2.1

/-- C2, witness at `ex2`. -/
theorem get_stats_count_closed_only_witness :
    (⟨2, 1, 2⟩ : TypeStats).count = (closedOfType ex2 "meph").length :=
  get_stats_count_closed_only ex2 "meph" ⟨2, 1, 2⟩ (by decide)

/-! ## Claim C1 -/

/-- C1, counterexample: ten closed runs of durations 1…10; the included
durations are 2…9 (sum 44, count 8), but the reported average is the Python 2
floor quotient `44 / 8 = 5`, which is not the arithmetic mean `44/8 = 5.5`. -/
theorem get_stats_avg_not_exact_mean_cex :
    MIN_RUNS ≤ (closedOfType ex1 "meph").length ∧
    (includedSecs ex1 "meph").sum = 44 ∧
    (includedSecs ex1 "meph").length = 8 ∧
    get_stats ex1 "meph" = some { avg := 5, count := 10, last := 10 } ∧
    (5 : ℚ) * 8 ≠ (44 : ℚ) := by
  refine ⟨by decide, by decide, by decide, by decide, by norm_num⟩

/-- C1, amended: with at least `MIN_RUNS` closed runs of a type, every
included duration lies within the closed interval bounded by the
linear-interpolation quantiles 0.1 and 0.9 of the sorted closed durations,
and the reported average is the *floor* (Python 2 integer division) of
included sum over included count — not the exact arithmetic mean. -/
theorem get_stats_trim_and_floor_avg (runs : List Run) (rtype : String)
    (h : MIN_RUNS ≤ (closedOfType runs rtype).length) :
    (∀ d ∈ includedSecs runs rtype,
        quantile7 (natCastList (sortedSecs runs rtype)) (1 / 10) ≤ (d : ℚ) ∧
        (d : ℚ) ≤ quantile7 (natCastList (sortedSecs runs rtype)) (9 / 10)) ∧
    (∀ o, get_stats runs rtype = some o →
        o.avg = (includedSecs runs rtype).sum / (includedSecs runs rtype).length) := by
  have hqmin : quantile7 (natCastList (sortedSecs runs rtype)) (1 / 10) =
      ((boundMinX10 runs rtype : ℕ) : ℚ) / 10 := by
    unfold boundMinX10
    have hq := quantX10_eq_quantile7 (sortedSecs runs rtype) 1 (le_refl 1) (by norm_num)
    simpa using hq
  have hqmax : quantile7 (natCastList (sortedSecs runs rtype)) (9 / 10) =
      ((boundMaxX10 runs rtype : ℕ) : ℚ) / 10 := by
    unfold boundMaxX10
    have hq := quantX10_eq_quantile7 (sortedSecs runs rtype) 9 (by norm_num) (le_refl 9)
    simpa using hq
  constructor
  · intro d hd
    obtain ⟨-, hpred⟩ := List.mem_filter.mp hd
    rw [Bool.or_eq_true] at hpred
    rcases hpred with hlt | hout
    · exact absurd (of_decide_eq_true hlt) (Nat.not_lt.mpr h)
    · rw [Bool.not_eq_true'] at hout
      unfold is_outlier at hout
      rw [Bool.or_eq_false_iff] at hout
      obtain ⟨hmin, hmax⟩ := hout
      have hminN : boundMinX10 runs rtype ≤ 10 * d := Nat.not_lt.mp (of_decide_eq_false hmin)
      have hmaxN : 10 * d ≤ boundMaxX10 runs rtype := Nat.not_lt.mp (of_decide_eq_false hmax)
      constructor
      · rw [hqmin, div_le_iff₀ (by norm_num : (0 : ℚ) < 10)]
        have hd10 : boundMinX10 runs rtype ≤ d * 10 := by omega
        exact_mod_cast hd10
      · rw [hqmax, le_div_iff₀ (by norm_num : (0 : ℚ) < 10)]
        have hd10 : d * 10 ≤ boundMaxX10 runs rtype := by omega
        exact_mod_cast hd10
  · intro o ho
    exact (get_stats_some_inv ho).2.1

/-- C1, witness: the duration 9 of `ex1` is included and lies within the
quantile boundaries. -/
theorem get_stats_trim_and_floor_avg_witness :
    quantile7 (natCastList (sortedSecs ex1 "meph")) (1 / 10) ≤ ((9 : ℕ) : ℚ) ∧
    ((9 : ℕ) : ℚ) ≤ quantile7 (natCastList (sortedSecs ex1 "meph")) (9 / 10) :=
  (get_stats_trim_and_floor_avg ex1 "meph" (by decide)).1 9 (by decide)

/-! ## Claim C3 -/

/-- C3, counterexample: a user with ten closed runs of 10 seconds each; the
trimmed slice keeps 8 values summing to 80, the claim predicts the trimmed
average `80 / 8 = 10`, but `leaderboard` reports `80 / 10 = 8` — it divides
by the total closed count `nconsidered`, not the retained count. -/
theorem leaderboard_divisor_cex :
    leaderboardEntry ex3 "alice" "meph" = some (10, 8, "alice") ∧
    (trimmedLB ex3 "meph").sum = 80 ∧
    (trimmedLB ex3 "meph").length = 8 ∧
    (8 : ℚ) * 8 ≠ (80 : ℚ) := by
  refine ⟨by decide, by decide, by decide, by norm_num⟩

/-- C3, amended: for every identity and type with at least one closed run,
the leaderboard entry's average is the floor quotient of the index-trimmed
sum (indices `n/10` up to `9n/10` of the sorted closed durations) by the
*total* number `n` of closed runs of the type, not by the retained count. -/
theorem leaderboard_divides_by_closed_count (runs : List Run) (user rtype : String)
    (h : 0 < (consideredLB runs rtype).length) :
    leaderboardEntry runs user rtype =
      some ((runsOfType runs rtype).length,
        (trimmedLB runs rtype).sum / (consideredLB runs rtype).length, user) ∧
    (trimmedLB runs rtype).length =
      9 * (consideredLB runs rtype).length / 10 - (consideredLB runs rtype).length / 10 := by
  constructor
  · unfold leaderboardEntry
    rw [if_neg (by omega)]
  · unfold trimmedLB
    rw [List.length_take, List.length_drop]
    have h9 : 9 * (consideredLB runs rtype).length / 10 ≤ (consideredLB runs rtype).length := by
      omega
    omega

/-- C3, witness at `ex3`. -/
theorem leaderboard_divides_by_closed_count_witness :
    (leaderboardEntry ex3 "alice" "meph" =
      some ((runsOfType ex3 "meph").length,
        (trimmedLB ex3 "meph").sum / (consideredLB ex3 "meph").length, "alice")) ∧
    (trimmedLB ex3 "meph").length =
      9 * (consideredLB ex3 "meph").length / 10 - (consideredLB ex3 "meph").length / 10 :=
  leaderboard_divides_by_closed_count ex3 "alice" "meph" (by decide)

/-! ## Claim C7 -/

/-- C7: on a run list with strictly descending start times (the repository
order, duplicates forbidden), every reported `last` is the duration of the
most recently started closed run of the type — whether or not that duration
was excluded from the average as an outlier. -/
theorem get_stats_last_most_recent (runs : List Run) (rtype : String)
    (hs : runs.Pairwise (fun a b => b.start_dt < a.start_dt)) :
    ∀ o, get_stats runs rtype = some o →
      ∃ r, r ∈ runs ∧ r.end_dt.isSome = true ∧ r.type = rtype ∧
        Run.seconds r = some o.last ∧
        ∀ r', r' ∈ runs → r'.end_dt.isSome = true → r'.type = rtype → r' ≠ r →
          r'.start_dt < r.start_dt := by
  intro o ho
  obtain ⟨-, -, -, r, rest, hc, hlast⟩ := get_stats_some_inv ho
  have hrmem : r ∈ closedOfType runs rtype := by
    rw [hc]
    exact List.mem_cons_self r rest
  obtain ⟨hr_runs, hsome, htype⟩ := mem_closedOfType hrmem
  obtain ⟨v, hv⟩ := seconds_isSome hsome
  have hlast' : Run.seconds r = some o.last := by
    rw [hv] at hlast ⊢
    simp only [Option.getD_some] at hlast
    rw [hlast]
  refine ⟨r, hr_runs, hsome, htype, hlast', ?_⟩
  intro r' hr'm hr's hr't hne
  have hr'c : r' ∈ closedOfType runs rtype :=
    List.mem_filter.mpr ⟨hr'm, by simp [hr's, hr't]⟩
  rw [hc] at hr'c
  rcases List.mem_cons.mp hr'c with rfl | hr'rest
  · exact absurd rfl hne
  · have hp : (closedOfType runs rtype).Pairwise (fun a b => b.start_dt < a.start_dt) :=
      hs.sublist (List.filter_sublist _)
    rw [hc] at hp
    exact (List.pairwise_cons.mp hp).1 r' hr'rest

/-- C7, witness: on `ex7` the reported `last` (= 2) is the duration of the
most recently started closed run. -/
theorem get_stats_last_most_recent_witness :
    ∃ r, r ∈ ex7 ∧ r.end_dt.isSome = true ∧ r.type = "meph" ∧
      Run.seconds r = some (⟨1, 2, 2⟩ : TypeStats).last ∧
      ∀ r', r' ∈ ex7 → r'.end_dt.isSome = true → r'.type = "meph" → r' ≠ r →
        r'.start_dt < r.start_dt :=
  get_stats_last_most_recent ex7 "meph" (by decide) ⟨1, 2, 2⟩ (by decide)

/-! ## Claim C6 -/

/-- C6: the claim (and the spec's immutability invariant) says a `left` event
for a group with no open run is a no-op, but `get_run` has no
`end_dt is null` filter, so `stop_run` overwrites the end time of the most
recently started *closed* run: on a group whose only run is closed at time 5,
a `left` event at time 100 rewrites that run's `end_dt` to 100. -/
theorem stop_run_mutates_closed_run :
    (∀ r ∈ ex6, r.end_dt.isSome = true) ∧
    stop_run ex6 1 100 = [⟨1, 1, "meph", 0, some 100⟩] ∧
    stop_run ex6 1 100 ≠ ex6 := by
  decide

/-! ## Claim C10 -/

/-- C10: a `GET` statistics request for a username not in the users table
inserts a new user row and (the fresh user having no group) a new group row
before answering — the read query mutates persistent state. -/
theorem stats_route_inserts_unknown_user (db : AppDB) (username : String)
    (hu : ∀ u ∈ db.users, u.2 ≠ username)
    (hg : ∀ gr ∈ db.groups, gr.2 ≠ db.nextUser) :
    stats_route db username =
      { users := db.users ++ [(db.nextUser, username)],
        groups := db.groups ++ [(db.nextGroup, db.nextUser)],
        nextUser := db.nextUser + 1,
        nextGroup := db.nextGroup + 1 } := by
  have hfind : db.users.find? (fun u => u.2 == username) = none := by
    apply List.find?_eq_none.mpr
    intro u hu'
    simp [hu u hu']
  have hfilter : db.groups.filter (fun gr => gr.2 == db.nextUser) = [] := by
    apply List.filter_eq_nil_iff.mpr
    intro gr hgr
    simp [hg gr hgr]
  simp [stats_route, get_user, add_user, get_group, add_group, hfind, hfilter]

/-- C10, witness: the empty database gains a user row and a group row. -/
theorem stats_route_inserts_unknown_user_witness :
    stats_route ex10 "alice" =
      { users := ex10.users ++ [(ex10.nextUser, "alice")],
        groups := ex10.groups ++ [(ex10.nextGroup, ex10.nextUser)],
        nextUser := ex10.nextUser + 1,
        nextGroup := ex10.nextGroup + 1 } :=
  stats_route_inserts_unknown_user ex10 "alice" (by decide) (by decide)

end Infobot
